import Mathlib

/-!
Verification of the KIRO/QDEV subscription batcher core against its
natural-language specification.

The Lean definitions below are a shallow embedding of the Python source:

* `src/src/models.py`      — `UserSubscription`, `IAMUser`, `BatchResult`, …
* `src/src/user_manager.py` — `sync_users`, `_needs_update`,
  `batch_process_users_concurrent`, `execute_sync_plan`
* `src/src/aws_client.py`  — `_retry_api_call`, `_is_rate_limit_error`
* `src/src/data_cache.py`  — `DataCache.initialize` and its accessors
* `src/src/user_attribute_upgrader.py` — `generate_upgrade_plan`,
  `_needs_upgrade`, `_extract_employee_id`, `upgrade_user_attributes`

Python dicts are modelled as insertion-ordered association lists
(`dictInsert` / `dictOf` / `alookup`), Python exceptions as `Except`
values, remote calls as explicit call traces, and the thread pool of the
concurrent executor as a deterministic schedule parameterised by the
point at which task submission stopped.
-/

namespace SubBatcher

/-- `Subscription type strings` from `models.SubscriptionType` (values of the enum). -/
def kiroSubscription : String := "KIRO订阅"

def qdevSubscription : String := "QDEV订阅"

def allSubscription : String := "全部订阅"

def noneSubscription : String := "取消订阅/不订阅"

/-- `models.UserSubscription` (without the optional `_config`, i.e. the
default-configuration behaviour used by `sync_users`). -/
structure UserSubscription where
  employee_id : String
  name : String
  email : String
  subscription_type : String
  deriving DecidableEq, Repr

/-- `UserSubscription.get_username` with the default template:
`f"{self.employee_id}@haier-saml.com"`. -/
def UserSubscription.get_username (u : UserSubscription) : String :=
  u.employee_id ++ "@haier-saml.com"

/-- Default KIRO group name (`models.py`, backwards-compatible default). -/
def kiroGroup : String := "Group_KIRO_eu-central-1"

/-- Default QDEV group name (`models.py`, backwards-compatible default). -/
def qdevGroup : String := "Group_QDEV_eu-central-1"

/-- `UserSubscription.get_target_groups` with the default group names. -/
def UserSubscription.get_target_groups (u : UserSubscription) : List String :=
  if u.subscription_type = kiroSubscription then [kiroGroup]
  else if u.subscription_type = qdevSubscription then [qdevGroup]
  else if u.subscription_type = allSubscription then [kiroGroup, qdevGroup]
  else []

/-- `models.IAMUser`. -/
structure IAMUser where
  user_id : String
  username : String
  email : String
  first_name : String
  last_name : String
  display_name : String
  groups : List String
  deriving DecidableEq, Repr

/-- `models.OperationResult` (the `timestamp` wall-clock field and the
free-form `details` dict are dropped; no claim inspects them). -/
structure OperationResult where
  operation_type : String
  target : String
  success : Bool
  message : String
  deriving DecidableEq, Repr

/-- `models.BatchResult`. -/
structure BatchResult where
  total_operations : Nat
  successful_operations : Nat
  failed_operations : Nat
  operation_results : List OperationResult
  deriving DecidableEq, Repr

/-- `BatchResult.success_rate`: `0.0` when `total_operations == 0`, else
the quotient (modelled over `ℚ`). -/
def BatchResult.success_rate (b : BatchResult) : ℚ :=
  if b.total_operations = 0 then 0
  else (b.successful_operations : ℚ) / (b.total_operations : ℚ)

/-! ### Python `dict` as an insertion-ordered association list

`dict[k] = v` keeps the original position of an existing key but
replaces its value; a fresh key is appended at the end.  Iteration over
`dict.items()` is in that key order. -/

/-- One Python dict assignment `d[k] = v`. -/
def dictInsert (k : String) (v : α) : List (String × α) → List (String × α)
  | [] => [(k, v)]
  | (k', v') :: rest =>
    if k' = k then (k', v) :: rest else (k', v') :: dictInsert k v rest

/-- Dict comprehension `{f(x): x for x in xs}`. -/
def dictOf (f : α → String) (xs : List α) : List (String × α) :=
  xs.foldl (fun d x => dictInsert (f x) x d) []

/-- Python `k in d` / `d.get(k)` lookup. -/
def alookup (k : String) : List (String × α) → Option α
  | [] => none
  | (k', v) :: rest => if k' = k then some v else alookup k rest

/-! ### The sync planner (`user_manager.sync_users`, `_needs_update`) -/

/-- `UserManager._needs_update(csv_user, iam_user)`; `newFormat` is the
value of `self._should_use_new_format()`. -/
def needs_update (newFormat : Bool) (csv_user : UserSubscription) (iam_user : IAMUser) : Bool :=
  if iam_user.username ≠ csv_user.get_username then true
  else if iam_user.email ≠ csv_user.email then true
  else if newFormat ∧ iam_user.display_name ≠ csv_user.employee_id ++ "_" ++ csv_user.name then true
  else if csv_user.get_target_groups.toFinset ≠ iam_user.groups.toFinset then true
  else false

instance {ε α : Type} [DecidableEq ε] [DecidableEq α] : DecidableEq (Except ε α) := fun a b =>
  match a, b with
  | .error e, .error e' =>
    if h : e = e' then .isTrue (h ▸ rfl) else .isFalse fun hh => h (Except.error.inj hh)
  | .ok v, .ok v' =>
    if h : v = v' then .isTrue (h ▸ rfl) else .isFalse fun hh => h (Except.ok.inj hh)
  | .error _, .ok _ => .isFalse Except.noConfusion
  | .ok _, .error _ => .isFalse Except.noConfusion

/-- Python `s.endswith(suffix)` (modelled over the character list, since
core `String.endsWith` does not reduce inside the kernel). -/
def strEndsWith (s suffix : String) : Bool := suffix.data.isSuffixOf s.data

/-- The managed-domain suffix hard-coded in `sync_users` (line 1178). -/
def managedSuffix : String := "@haier-saml.com"

/-- Python `str.split()` with no argument: split on whitespace,
discarding empty pieces (modelled over the character list; core
`String.split` is defined by well-founded recursion and does not reduce
inside the kernel). -/
def splitWhitespace (s : String) : List String :=
  ((s.data.splitOnP Char.isWhitespace).map fun l => (⟨l⟩ : String)).filter
    fun t => t ≠ ""

/-- `username.split('@')[0]`: the part before the first `'@'` (the whole
string when there is no `'@'`). -/
def beforeFirstAt (s : String) : String :=
  ⟨s.data.takeWhile fun c => c ≠ '@'⟩

/-- The temporary `UserSubscription` that `sync_users` builds for a user
scheduled for deletion (lines 1180–1186).  `display_name.split()[0]`
raises `IndexError` when the display name is non-empty but entirely
whitespace; that is modelled as `Except.error`. -/
def mkTempDeleteUser (username : String) (iam_user : IAMUser) :
    Except String UserSubscription :=
  let nameTok : Except String String :=
    if iam_user.display_name = "" then .ok "Unknown"
    else
      match splitWhitespace iam_user.display_name with
      | [] => .error "IndexError: list index out of range"
      | t :: _ => .ok t
  nameTok.map fun nm =>
    { employee_id := beforeFirstAt username
      name := nm
      email := iam_user.email
      subscription_type := noneSubscription }

/-- The dict returned by `sync_users`. -/
structure SyncPlan where
  users_to_create : List UserSubscription
  users_to_update : List UserSubscription
  users_to_delete : List UserSubscription
  total_operations : Nat
  deriving DecidableEq, Repr

/-- The second loop of `sync_users`: walk the IAM dict, keep users whose
username is absent from the CSV dict and carries the managed suffix. -/
def buildDeletes (csvDict : List (String × UserSubscription)) :
    List (String × IAMUser) → Except String (List UserSubscription)
  | [] => .ok []
  | (username, iam_user) :: rest =>
    if (alookup username csvDict).isNone ∧ strEndsWith username managedSuffix then
      match mkTempDeleteUser username iam_user with
      | .error e => .error e
      | .ok t => (buildDeletes csvDict rest).map (t :: ·)
    else buildDeletes csvDict rest

/-- `UserManager.sync_users(csv_users)` against the snapshot `iam_users`
returned by `get_existing_users()`.  `newFormat` is
`self._should_use_new_format()`. -/
def sync_users (newFormat : Bool) (csv_users : List UserSubscription)
    (iam_users : List IAMUser) : Except String SyncPlan :=
  let csvDict := dictOf UserSubscription.get_username csv_users
  let iamDict := dictOf IAMUser.username iam_users
  let creates :=
    (csvDict.filter fun p => (alookup p.1 iamDict).isNone).map Prod.snd
  let updates :=
    csvDict.filterMap fun p =>
      match alookup p.1 iamDict with
      | some iam_user => if needs_update newFormat p.2 iam_user then some p.2 else none
      | none => none
  match buildDeletes csvDict iamDict with
  | .error e => .error e
  | .ok deletes =>
    .ok { users_to_create := creates
          users_to_update := updates
          users_to_delete := deletes
          total_operations := creates.length + deletes.length + updates.length }

/-! ### Association-list lemmas -/

theorem alookup_dictInsert (k k' : String) (v : α) (d : List (String × α)) :
    alookup k (dictInsert k' v d) = if k' = k then some v else alookup k d := by
  induction d with
  | nil => simp [dictInsert, alookup]
  | cons p rest ih =>
    obtain ⟨k₀, v₀⟩ := p
    simp only [dictInsert]
    by_cases h0 : k₀ = k'
    · subst h0
      simp only [if_pos rfl, alookup]
      by_cases h1 : k₀ = k <;> simp [h1]
    · simp only [if_neg h0, alookup]
      by_cases h1 : k₀ = k
      · subst h1
        have hk : ¬(k' = k₀) := fun h => h0 h.symm
        simp [hk]
      · simp [h1, ih]

theorem mem_dictInsert (p : String × α) (k : String) (v : α) (d : List (String × α))
    (h : p ∈ dictInsert k v d) : p = (k, v) ∨ p ∈ d := by
  induction d with
  | nil => simpa [dictInsert] using h
  | cons q rest ih =>
    obtain ⟨k₀, v₀⟩ := q
    by_cases h0 : k₀ = k
    · subst h0
      rcases (by simpa [dictInsert] using h : p = (k₀, v) ∨ p ∈ rest) with h | h
      · exact Or.inl (by simp [h])
      · exact Or.inr (List.mem_cons_of_mem _ h)
    · rcases (by simpa [dictInsert, h0] using h :
          p = (k₀, v₀) ∨ p ∈ dictInsert k v rest) with h | h
      · exact Or.inr (by simp [h])
      · rcases ih h with h | h
        · exact Or.inl h
        · exact Or.inr (List.mem_cons_of_mem _ h)

theorem mem_foldl_dictInsert (f : α → String) (xs : List α) :
    ∀ (d : List (String × α)) (p : String × α),
      p ∈ xs.foldl (fun d x => dictInsert (f x) x d) d →
      (p.2 ∈ xs ∧ f p.2 = p.1) ∨ p ∈ d := by
  induction xs with
  | nil => intro d p h; exact Or.inr h
  | cons x xs ih =>
    intro d p h
    rcases ih (dictInsert (f x) x d) p h with h' | h'
    · exact Or.inl ⟨List.mem_cons_of_mem _ h'.1, h'.2⟩
    · rcases mem_dictInsert p (f x) x d h' with h'' | h''
      · exact Or.inl ⟨by simp [h''], by simp [h'']⟩
      · exact Or.inr h''

/-- Every entry of `dictOf f xs` is an element of `xs` paired with its key. -/
theorem mem_dictOf (f : α → String) (xs : List α) (p : String × α)
    (h : p ∈ dictOf f xs) : p.2 ∈ xs ∧ f p.2 = p.1 := by
  rcases mem_foldl_dictInsert f xs [] p h with h' | h'
  · exact h'
  · simp at h'

theorem dictInsert_of_fresh (k : String) (v : α) (d : List (String × α))
    (h : ∀ q ∈ d, Prod.fst q ≠ k) : dictInsert k v d = d ++ [(k, v)] := by
  induction d with
  | nil => simp [dictInsert]
  | cons p rest ih =>
    obtain ⟨k₀, v₀⟩ := p
    have hk : k₀ ≠ k := h (k₀, v₀) (by simp)
    simp [dictInsert, hk]
    exact ih fun q hq => h q (List.mem_cons_of_mem _ hq)

theorem foldl_dictInsert_nodup (f : α → String) (xs : List α) :
    ∀ (d : List (String × α)), (∀ x ∈ xs, ∀ q ∈ d, Prod.fst q ≠ f x) →
      (xs.map f).Nodup →
      xs.foldl (fun d x => dictInsert (f x) x d) d = d ++ xs.map fun x => (f x, x) := by
  induction xs with
  | nil => intro d _ _; simp
  | cons x xs ih =>
    intro d hfresh hnodup
    have hcons : f x ∉ xs.map f ∧ (xs.map f).Nodup :=
      List.nodup_cons.1 (show (f x :: xs.map f).Nodup by simpa using hnodup)
    have hx : dictInsert (f x) x d = d ++ [(f x, x)] :=
      dictInsert_of_fresh _ _ _ fun q hq => hfresh x (by simp) q hq
    have hrest : ∀ y ∈ xs, ∀ q ∈ d ++ [(f x, x)], Prod.fst q ≠ f y := by
      intro y hy q hq
      rcases List.mem_append.1 hq with hq | hq
      · exact hfresh y (List.mem_cons_of_mem _ hy) q hq
      · simp only [List.mem_singleton] at hq
        subst hq
        simp only [ne_eq]
        intro hcontra
        exact hcons.1 (by simpa [hcontra] using List.mem_map_of_mem f hy)
    calc (x :: xs).foldl (fun d x => dictInsert (f x) x d) d
        = xs.foldl (fun d x => dictInsert (f x) x d) (d ++ [(f x, x)]) := by
          simp [List.foldl_cons, hx]
      _ = (d ++ [(f x, x)]) ++ xs.map (fun x => (f x, x)) := ih _ hrest hcons.2
      _ = d ++ (x :: xs).map fun x => (f x, x) := by simp

/-- When the keys are pairwise distinct, `dictOf f xs` is just `xs`
paired with its keys, in input order. -/
theorem dictOf_nodup (f : α → String) (xs : List α) (h : (xs.map f).Nodup) :
    dictOf f xs = xs.map fun x => (f x, x) := by
  simpa using foldl_dictInsert_nodup f xs [] (by simp) h

/-- Looking a key up in an explicitly paired list is `find?` on the keys. -/
theorem alookup_map_pair (f : α → String) (k : String) (xs : List α) :
    alookup k (xs.map fun x => (f x, x)) = xs.find? fun x => f x == k := by
  induction xs with
  | nil => simp [alookup]
  | cons x xs ih =>
    by_cases h : f x = k
    · rw [List.map_cons, List.find?_cons_of_pos _ (by simp [h])]
      simp [alookup, h]
    · rw [List.map_cons, List.find?_cons_of_neg _ (by simp [h])]
      simpa [alookup, h] using ih

/-! ### C3: the needs-update predicate -/

/-- C3.  `_needs_update(csv_user, iam_user)` returns `true` iff the
username differs from the canonical username, or the email differs, or
(only in new-format mode) the display name differs from
`{employee_id}_{name}`, or the target group set differs from the current
group set compared as sets; consequently a snapshot identity that
exactly mirrors the desired identity's canonical fields and group set is
classified as a no-op (`_needs_update` is `false`), not an update. -/
theorem needs_update_spec (newFormat : Bool) (csv_user : UserSubscription)
    (iam_user : IAMUser) :
    (needs_update newFormat csv_user iam_user = true ↔
      iam_user.username ≠ csv_user.get_username ∨
      iam_user.email ≠ csv_user.email ∨
      (newFormat = true ∧
        iam_user.display_name ≠ csv_user.employee_id ++ "_" ++ csv_user.name) ∨
      csv_user.get_target_groups.toFinset ≠ iam_user.groups.toFinset) ∧
    (iam_user.username = csv_user.get_username →
      iam_user.email = csv_user.email →
      iam_user.display_name = csv_user.employee_id ++ "_" ++ csv_user.name →
      csv_user.get_target_groups.toFinset = iam_user.groups.toFinset →
      needs_update newFormat csv_user iam_user = false) := by
  constructor
  · unfold needs_update
    split_ifs with h1 h2 h3 h4 <;> simp_all
  · intro hu he hd hg
    unfold needs_update
    split_ifs with h1 h2 h3 h4 <;> simp_all

/-- Witness for C3: a snapshot identity mirroring the desired identity
`E1/Alice` (KIRO subscription) is reported as not needing an update. -/
theorem needs_update_spec_witness :
    needs_update true ⟨"E1", "Alice", "a@x.com", "KIRO订阅"⟩
      ⟨"id1", "E1@haier-saml.com", "a@x.com", "E1", "Alice", "E1_Alice",
        ["Group_KIRO_eu-central-1"]⟩ = false :=
  (needs_update_spec true ⟨"E1", "Alice", "a@x.com", "KIRO订阅"⟩
      ⟨"id1", "E1@haier-saml.com", "a@x.com", "E1", "Alice", "E1_Alice",
        ["Group_KIRO_eu-central-1"]⟩).2
    rfl rfl rfl (by decide)

/-! ### C1: the sync plan partition -/

theorem filterMap_ite_eq_filter (p : α → Bool) (l : List α) :
    l.filterMap (fun x => if p x then some x else none) = l.filter p := by
  induction l with
  | nil => rfl
  | cons x xs ih =>
    by_cases h : p x <;> simp [List.filterMap_cons, List.filter_cons, h, ih]

/-- Every user scheduled for deletion originates from an entry of the
IAM dict whose username is absent from the CSV dict and carries the
managed suffix. -/
theorem mem_buildDeletes (csvDict : List (String × UserSubscription)) :
    ∀ (l : List (String × IAMUser)) (deletes : List UserSubscription),
      buildDeletes csvDict l = .ok deletes → ∀ d ∈ deletes,
      ∃ w iu, (w, iu) ∈ l ∧ alookup w csvDict = none ∧
        strEndsWith w managedSuffix = true ∧ mkTempDeleteUser w iu = .ok d := by
  intro l
  induction l with
  | nil =>
    intro deletes h d hd
    simp only [buildDeletes, Except.ok.injEq] at h
    subst h
    simp at hd
  | cons p rest ih =>
    obtain ⟨w, iu⟩ := p
    intro deletes h d hd
    simp only [buildDeletes] at h
    by_cases hc : (alookup w csvDict).isNone ∧ strEndsWith w managedSuffix
    · rw [if_pos hc] at h
      cases hmk : mkTempDeleteUser w iu with
      | error e => rw [hmk] at h; simp at h
      | ok t =>
        rw [hmk] at h
        cases hrest : buildDeletes csvDict rest with
        | error e => rw [hrest] at h; simp [Except.map] at h
        | ok ds =>
          rw [hrest] at h
          simp only [Except.map, Except.ok.injEq] at h
          subst h
          rcases List.mem_cons.1 hd with hd | hd
          · subst hd
            exact ⟨w, iu, by simp, Option.isNone_iff_eq_none.1 hc.1, hc.2, hmk⟩
          · obtain ⟨w', iu', hmem, hnone, hsuf, hmk'⟩ := ih ds hrest d hd
            exact ⟨w', iu', List.mem_cons_of_mem _ hmem, hnone, hsuf, hmk'⟩
    · rw [if_neg hc] at h
      obtain ⟨w', iu', hmem, hnone, hsuf, hmk'⟩ := ih deletes h d hd
      exact ⟨w', iu', List.mem_cons_of_mem _ hmem, hnone, hsuf, hmk'⟩

theorem mkTempDeleteUser_ok (w : String) (iu : IAMUser) (d : UserSubscription)
    (h : mkTempDeleteUser w iu = .ok d) :
    d.employee_id = beforeFirstAt w ∧ d.email = iu.email ∧
      d.subscription_type = noneSubscription := by
  unfold mkTempDeleteUser at h
  by_cases hd : iu.display_name = ""
  · rw [if_pos hd] at h
    simp only [Except.map, Except.ok.injEq] at h
    subst h
    exact ⟨rfl, rfl, rfl⟩
  · rw [if_neg hd] at h
    cases hsp : splitWhitespace iu.display_name with
    | nil => rw [hsp] at h; simp [Except.map] at h
    | cons t ts =>
      rw [hsp] at h
      simp only [Except.map, Except.ok.injEq] at h
      subst h
      exact ⟨rfl, rfl, rfl⟩

/-- C1 (amended).  When the desired identities have pairwise-distinct
usernames (the roster is deduplicated upstream), the snapshot is a
mapping (pairwise-distinct usernames), and every managed-suffix snapshot
username has the canonical single-`@` shape, `sync_users` partitions:
`toCreate` is exactly the desired identities absent from the snapshot,
`toUpdate` exactly the present ones for which `_needs_update` holds (the
rest are no-ops, in neither list), every `toDelete` entry's username is a
snapshot-only username, and the three lists are pairwise disjoint by
username. -/
theorem sync_users_partition (newFormat : Bool)
    (csv_users : List UserSubscription) (iam_users : List IAMUser)
    (plan : SyncPlan)
    (hcsv : (csv_users.map UserSubscription.get_username).Nodup)
    (hiam : (iam_users.map IAMUser.username).Nodup)
    (hshape : ∀ iu ∈ iam_users, strEndsWith iu.username managedSuffix = true →
      beforeFirstAt iu.username ++ managedSuffix = iu.username)
    (hok : sync_users newFormat csv_users iam_users = .ok plan) :
    plan.users_to_create = (csv_users.filter fun u =>
        (iam_users.find? fun iu => iu.username == u.get_username).isNone) ∧
    plan.users_to_update = (csv_users.filter fun u =>
        match iam_users.find? fun iu => iu.username == u.get_username with
        | some iam_user => needs_update newFormat u iam_user
        | none => false) ∧
    (∀ d ∈ plan.users_to_delete,
        d.get_username ∈ iam_users.map IAMUser.username ∧
        d.get_username ∉ csv_users.map UserSubscription.get_username) ∧
    (∀ w, w ∈ plan.users_to_create.map UserSubscription.get_username →
        w ∉ plan.users_to_update.map UserSubscription.get_username) ∧
    (∀ w, w ∈ plan.users_to_create.map UserSubscription.get_username →
        w ∉ plan.users_to_delete.map UserSubscription.get_username) ∧
    (∀ w, w ∈ plan.users_to_update.map UserSubscription.get_username →
        w ∉ plan.users_to_delete.map UserSubscription.get_username) := by
  classical
  unfold sync_users at hok
  rw [dictOf_nodup _ _ hcsv, dictOf_nodup _ _ hiam] at hok
  simp only [] at hok
  split at hok
  next e hdel => simp at hok
  next deletes hdel =>
  rw [Except.ok.injEq] at hok
  subst hok
  dsimp only
  have hcreate : ((csv_users.map fun u => (u.get_username, u)).filter (fun p =>
        (alookup p.1 (iam_users.map fun iu => (iu.username, iu))).isNone)).map Prod.snd
      = csv_users.filter fun u =>
        (iam_users.find? fun iu => iu.username == u.get_username).isNone := by
    rw [List.filter_map, List.map_map]
    have h1 : ((fun p : String × UserSubscription =>
          (alookup p.1 (iam_users.map fun iu => (iu.username, iu))).isNone) ∘
            fun u => (u.get_username, u))
        = fun u : UserSubscription =>
          (iam_users.find? fun iu => iu.username == u.get_username).isNone := by
      funext u
      simp only [Function.comp_apply]
      rw [alookup_map_pair IAMUser.username u.get_username iam_users]
    rw [h1]
    exact List.map_id _
  have hupdate : ((csv_users.map fun u => (u.get_username, u)).filterMap fun p =>
        match alookup p.1 (iam_users.map fun iu => (iu.username, iu)) with
        | some iam_user => if needs_update newFormat p.2 iam_user then some p.2 else none
        | none => none)
      = csv_users.filter fun u =>
        match iam_users.find? fun iu => iu.username == u.get_username with
        | some iam_user => needs_update newFormat u iam_user
        | none => false := by
    rw [List.filterMap_map]
    have h1 : ((fun p : String × UserSubscription =>
          match alookup p.1 (iam_users.map fun iu => (iu.username, iu)) with
          | some iam_user => if needs_update newFormat p.2 iam_user then some p.2 else none
          | none => none) ∘ fun u => (u.get_username, u))
        = fun u : UserSubscription =>
          if (match iam_users.find? fun iu => iu.username == u.get_username with
              | some iam_user => needs_update newFormat u iam_user
              | none => false) then some u else none := by
      funext u
      simp only [Function.comp_apply]
      rw [alookup_map_pair IAMUser.username u.get_username iam_users]
      cases iam_users.find? fun iu => iu.username == u.get_username with
      | none => simp
      | some iu => by_cases h : needs_update newFormat u iu <;> simp [h]
    rw [h1, filterMap_ite_eq_filter]
  have hdelete : ∀ d ∈ deletes,
      d.get_username ∈ iam_users.map IAMUser.username ∧
      d.get_username ∉ csv_users.map UserSubscription.get_username := by
    intro d hd
    obtain ⟨w, iu, hmem, hnone, hsuf, hmk⟩ := mem_buildDeletes _ _ _ hdel d hd
    obtain ⟨iu', hiu', hpair⟩ := List.mem_map.1 hmem
    have hw : iu'.username = w := congrArg Prod.fst hpair
    have hiu : iu' = iu := congrArg Prod.snd hpair
    rw [← hiu] at hmk
    obtain ⟨heid, -, -⟩ := mkTempDeleteUser_ok w iu' d hmk
    have hshape' := hshape iu' hiu' (by rw [hw]; exact hsuf)
    rw [hw] at hshape'
    have hgu : d.get_username = w := by
      calc d.get_username = d.employee_id ++ "@haier-saml.com" := rfl
        _ = beforeFirstAt w ++ managedSuffix := by rw [heid]; rfl
        _ = w := hshape'
    constructor
    · rw [hgu, ← hw]
      exact List.mem_map_of_mem _ hiu'
    · rw [hgu]
      rw [alookup_map_pair UserSubscription.get_username w csv_users,
        List.find?_eq_none] at hnone
      intro hcontra
      obtain ⟨u, hu, hgu'⟩ := List.mem_map.1 hcontra
      exact hnone u hu (by simp [hgu'])
  refine ⟨hcreate, hupdate, hdelete, ?_, ?_, ?_⟩
  · intro w hc hu
    rw [hcreate] at hc
    rw [hupdate] at hu
    obtain ⟨u, hu1, hu2⟩ := List.mem_map.1 hc
    obtain ⟨u', hu1', hu2'⟩ := List.mem_map.1 hu
    rw [List.mem_filter] at hu1 hu1'
    have hq1 := hu1.2
    have hq2 := hu1'.2
    rw [hu2] at hq1
    rw [hu2'] at hq2
    cases hf : iam_users.find? fun iu => iu.username == w with
    | none => rw [hf] at hq2; simp at hq2
    | some iu => rw [hf] at hq1; simp at hq1
  · intro w hc hd
    rw [hcreate] at hc
    obtain ⟨u, hu1, hu2⟩ := List.mem_map.1 hc
    obtain ⟨d, hd1, hd2⟩ := List.mem_map.1 hd
    have := (hdelete d hd1).2
    rw [hd2] at this
    exact this (by
      rw [← hu2]
      exact List.mem_map_of_mem _ (List.mem_filter.1 hu1).1)
  · intro w hu hd
    rw [hupdate] at hu
    obtain ⟨u, hu1, hu2⟩ := List.mem_map.1 hu
    obtain ⟨d, hd1, hd2⟩ := List.mem_map.1 hd
    have := (hdelete d hd1).2
    rw [hd2] at this
    exact this (by
      rw [← hu2]
      exact List.mem_map_of_mem _ (List.mem_filter.1 hu1).1)

/-- Concrete roster for the witnesses: one desired user to create. -/
def wCsv : List UserSubscription := [⟨"E1", "Alice", "a@x.com", kiroSubscription⟩]

/-- Concrete snapshot for the witnesses: one managed user absent from the roster. -/
def wIam : List IAMUser :=
  [⟨"id9", "E9@haier-saml.com", "e9@x.com", "E9", "Zed", "Z", []⟩]

/-- The temporary delete record `sync_users` derives from `wIam`. -/
def wDel : UserSubscription := ⟨"E9", "Z", "e9@x.com", noneSubscription⟩

/-- The plan `sync_users` computes for `wCsv` / `wIam`. -/
def wPlan : SyncPlan :=
  { users_to_create := [⟨"E1", "Alice", "a@x.com", kiroSubscription⟩]
    users_to_update := []
    users_to_delete := [wDel]
    total_operations := 2 }

/-- Witness for C1: the partition theorem applied to the concrete
roster/snapshot `wCsv` / `wIam`. -/
theorem sync_users_partition_witness :
    wPlan.users_to_create = (wCsv.filter fun u =>
        (wIam.find? fun iu => iu.username == u.get_username).isNone) ∧
    wPlan.users_to_update = (wCsv.filter fun u =>
        match wIam.find? fun iu => iu.username == u.get_username with
        | some iam_user => needs_update true u iam_user
        | none => false) ∧
    (∀ d ∈ wPlan.users_to_delete,
        d.get_username ∈ wIam.map IAMUser.username ∧
        d.get_username ∉ wCsv.map UserSubscription.get_username) ∧
    (∀ w, w ∈ wPlan.users_to_create.map UserSubscription.get_username →
        w ∉ wPlan.users_to_update.map UserSubscription.get_username) ∧
    (∀ w, w ∈ wPlan.users_to_create.map UserSubscription.get_username →
        w ∉ wPlan.users_to_delete.map UserSubscription.get_username) ∧
    (∀ w, w ∈ wPlan.users_to_update.map UserSubscription.get_username →
        w ∉ wPlan.users_to_delete.map UserSubscription.get_username) :=
  sync_users_partition true wCsv wIam wPlan (by decide) (by decide) (by decide)
    (by decide)

/-- First desired identity of the C1 counterexample; its username
`E1@haier-saml.com` is shadowed by `cexDupB` in the planner's dict. -/
def cexDupA : UserSubscription := ⟨"E1", "Alice", "a1@x.com", kiroSubscription⟩

/-- Second desired identity with the same username but another email. -/
def cexDupB : UserSubscription := ⟨"E1", "Alice", "a2@x.com", kiroSubscription⟩

/-- Third desired identity, whose username `a@haier-saml.com` collides
with the reconstructed username of the deleted snapshot user. -/
def cexThird : UserSubscription := ⟨"a", "Bob", "b@x.com", kiroSubscription⟩

/-- Snapshot identity with a double-`@` username under the managed suffix. -/
def cexIam : IAMUser := ⟨"id1", "a@b@haier-saml.com", "e@x.com", "", "", "D", []⟩

/-- The plan `sync_users` computes for the counterexample input. -/
def cexPlan : SyncPlan :=
  { users_to_create := [cexDupB, cexThird]
    users_to_update := []
    users_to_delete := [⟨"a", "D", "e@x.com", noneSubscription⟩]
    total_operations := 3 }

/-- Counterexample for C1 as frozen: on this input the desired identity
`cexDupA` — whose username is absent from the snapshot — lands in none
of toCreate/toUpdate/toDelete (its duplicate `cexDupB` shadows it), and
toCreate and toDelete share the username `a@haier-saml.com`, so the
three lists are not pairwise disjoint by username. -/
theorem sync_users_partition_counterexample :
    sync_users true [cexDupA, cexDupB, cexThird] [cexIam] = .ok cexPlan ∧
    cexDupA.get_username ∉ [cexIam].map IAMUser.username ∧
    cexDupA ∉ cexPlan.users_to_create ∧
    cexDupA ∉ cexPlan.users_to_update ∧
    cexDupA ∉ cexPlan.users_to_delete ∧
    "a@haier-saml.com" ∈ cexPlan.users_to_create.map UserSubscription.get_username ∧
    "a@haier-saml.com" ∈ cexPlan.users_to_delete.map UserSubscription.get_username := by
  decide

/-! ### C2: deletion is gated on the managed suffix -/

/-- C2.  Every entry of the sync plan's toDelete list has a username
ending in the managed-domain suffix `@haier-saml.com` (stated as: it is
some prefix followed by the suffix), and every deletion originates from
a snapshot identity whose username itself carries the managed suffix —
a snapshot identity outside the managed namespace is never scheduled
for deletion. -/
theorem sync_users_delete_suffix (newFormat : Bool)
    (csv_users : List UserSubscription) (iam_users : List IAMUser)
    (plan : SyncPlan)
    (hok : sync_users newFormat csv_users iam_users = .ok plan) :
    ∀ d ∈ plan.users_to_delete,
      (∃ p, d.get_username = p ++ managedSuffix) ∧
      ∃ iu ∈ iam_users, strEndsWith iu.username managedSuffix = true ∧
        d.employee_id = beforeFirstAt iu.username ∧ d.email = iu.email := by
  unfold sync_users at hok
  simp only [] at hok
  split at hok
  next e hdel => simp at hok
  next deletes hdel =>
  rw [Except.ok.injEq] at hok
  subst hok
  intro d hd
  obtain ⟨w, iu, hmem, hnone, hsuf, hmk⟩ := mem_buildDeletes _ _ _ hdel d hd
  obtain ⟨hiu, hw⟩ := mem_dictOf IAMUser.username iam_users (w, iu) hmem
  obtain ⟨heid, hmail, -⟩ := mkTempDeleteUser_ok w iu d hmk
  refine ⟨⟨d.employee_id, rfl⟩, iu, hiu, ?_, ?_, hmail⟩
  · rw [hw]; exact hsuf
  · rw [heid, hw]

/-- Witness for C2: in the concrete plan for `wCsv` / `wIam`, the single
deletion `wDel` carries the managed suffix and originates from the
managed snapshot user `E9@haier-saml.com`. -/
theorem sync_users_delete_suffix_witness :
    (∃ p, wDel.get_username = p ++ managedSuffix) ∧
    ∃ iu ∈ wIam, strEndsWith iu.username managedSuffix = true ∧
      wDel.employee_id = beforeFirstAt iu.username ∧ wDel.email = iu.email :=
  sync_users_delete_suffix true wCsv wIam wPlan (by decide) wDel (by decide)

/-! ### C4/C5: the retry policy (`aws_client._retry_api_call`)

`call_aws_api_with_retry` (lines 104–164) is dead code — it has no
caller anywhere in the repository — so every operation executed through
"the retry wrapper" goes through `_retry_api_call`, which is what is
modelled here. -/

/-- One attempt's outcome of the wrapped callable: a normal return, a
botocore `ClientError` carrying an error code, or any other exception. -/
inductive ApiOutcome (α : Type) where
  | ok (v : α)
  | clientError (code msg : String)
  | otherError (msg : String)
  deriving DecidableEq, Repr

/-- The throttling code list of `_is_rate_limit_error` (lines 95–101). -/
def rate_limit_codes : List String :=
  ["ThrottlingException", "TooManyRequestsException", "RequestLimitExceeded",
   "Throttling", "SlowDown"]

/-- `AWSClient._is_rate_limit_error`, keyed on the error code. -/
def is_rate_limit_error (code : String) : Bool := rate_limit_codes.contains code

/-- The terminal codes of `_retry_api_call` (lines 196–201). -/
def non_retryable_errors : List String :=
  ["ValidationException", "ResourceNotFoundException", "ConflictException",
   "AccessDeniedException"]

/-- The attempt loop of `_retry_api_call`.  `attempt` is the loop index
and `fuel = max_attempts - attempt` the remaining iterations; a `none`
result models the implicit `return None` after the loop (reachable only
when `max_attempts = 0`).  The second component is the list of
`time.sleep` durations, in order. -/
def retryAux (maxAttempts : ℕ) (initialDelay backoffFactor : ℚ)
    (f : ℕ → ApiOutcome α) : ℕ → ℕ → Option (Except String α) × List ℚ
  | _, 0 => (none, [])
  | attempt, fuel + 1 =>
    match f attempt with
    | .ok v => (some (.ok v), [])
    | .clientError code msg =>
      if non_retryable_errors.contains code ∨ attempt = maxAttempts - 1 then
        (some (.error ("AWS API调用失败: " ++ code ++ " - " ++ msg)), [])
      else
        let delay := initialDelay * backoffFactor ^ attempt
        let rest := retryAux maxAttempts initialDelay backoffFactor f (attempt + 1) fuel
        (rest.1, delay :: rest.2)
    | .otherError msg =>
      if attempt = maxAttempts - 1 then
        (some (.error ("AWS API调用异常: " ++ msg)), [])
      else
        let delay := initialDelay * backoffFactor ^ attempt
        let rest := retryAux maxAttempts initialDelay backoffFactor f (attempt + 1) fuel
        (rest.1, delay :: rest.2)

/-- `AWSClient._retry_api_call` under the retry configuration
`(max_attempts, initial_delay, backoff_factor)`. -/
def retry_api_call (maxAttempts : ℕ) (initialDelay backoffFactor : ℚ)
    (f : ℕ → ApiOutcome α) : Option (Except String α) × List ℚ :=
  retryAux maxAttempts initialDelay backoffFactor f 0 maxAttempts

theorem terminal_contains {c : String} (h : c ∈ non_retryable_errors) :
    non_retryable_errors.contains c = true := by
  simp only [non_retryable_errors, List.mem_cons, List.mem_singleton,
    List.not_mem_nil, or_false] at h
  rcases h with rfl | rfl | rfl | rfl <;> decide

theorem rate_limit_not_terminal {c : String} (h : c ∈ rate_limit_codes) :
    non_retryable_errors.contains c = false := by
  simp only [rate_limit_codes, List.mem_cons, List.mem_singleton,
    List.not_mem_nil, or_false] at h
  rcases h with rfl | rfl | rfl | rfl | rfl <;> decide

/-- C4.  Through `_retry_api_call`: an operation failing twice with a
throttling code and succeeding on the third attempt returns the success
result after exactly the two backoff sleeps `initial_delay *
backoff_factor ^ attempt` (attempts 0 and 1); an operation failing with
a terminal code (validation / not-found / conflict / access-denied)
fails immediately on that attempt, with zero sleeps and no further
attempts. -/
theorem retry_api_call_policy {α : Type} (maxAttempts : ℕ)
    (initialDelay backoffFactor : ℚ) (f : ℕ → ApiOutcome α) :
    (∀ v c0 c1 m0 m1, 3 ≤ maxAttempts →
      f 0 = .clientError c0 m0 → f 1 = .clientError c1 m1 → f 2 = .ok v →
      c0 ∈ rate_limit_codes → c1 ∈ rate_limit_codes →
      retry_api_call maxAttempts initialDelay backoffFactor f =
        (some (.ok v),
         [initialDelay * backoffFactor ^ 0, initialDelay * backoffFactor ^ 1])) ∧
    (∀ c m, 1 ≤ maxAttempts → f 0 = .clientError c m →
      c ∈ non_retryable_errors →
      retry_api_call maxAttempts initialDelay backoffFactor f =
        (some (.error ("AWS API调用失败: " ++ c ++ " - " ++ m)), [])) := by
  constructor
  · intro v c0 c1 m0 m1 h3 hf0 hf1 hf2 hc0 hc1
    obtain ⟨k, rfl⟩ : ∃ k, maxAttempts = k + 3 := ⟨maxAttempts - 3, by omega⟩
    have e0 : ¬(non_retryable_errors.contains c0 ∨ (0 : ℕ) = k + 3 - 1) := by
      rw [rate_limit_not_terminal hc0]
      simp
    have e1 : ¬(non_retryable_errors.contains c1 ∨ (1 : ℕ) = k + 3 - 1) := by
      rw [rate_limit_not_terminal hc1]
      simp
    show retryAux (k + 3) initialDelay backoffFactor f 0 (k + 3) = _
    rw [show k + 3 = (k + 2) + 1 from rfl]
    simp only [retryAux, hf0]
    rw [if_neg e0]
    rw [show k + 2 = (k + 1) + 1 from rfl]
    simp only [retryAux, hf1]
    rw [if_neg e1]
    rw [show k + 1 = k + 1 from rfl]
    simp only [retryAux, hf2]
  · intro c m h1 hf0 hc
    obtain ⟨k, rfl⟩ : ∃ k, maxAttempts = k + 1 := ⟨maxAttempts - 1, by omega⟩
    show retryAux (k + 1) initialDelay backoffFactor f 0 (k + 1) = _
    simp only [retryAux, hf0]
    rw [if_pos (Or.inl (terminal_contains hc))]

/-- Concrete callable for the C4 witness: throttled twice, then 42. -/
def wRetryThrottle : ℕ → ApiOutcome ℕ := fun i =>
  if i = 0 then .clientError "ThrottlingException" "slow down"
  else if i = 1 then .clientError "SlowDown" "slow down"
  else .ok 42

/-- Witness for C4 (retryable half): with `max_attempts = 3`,
`initial_delay = 1`, `backoff_factor = 2`, the throttled-twice callable
returns 42 after sleeps of 1s and 2s. -/
theorem retry_api_call_policy_witness :
    retry_api_call 3 1 2 wRetryThrottle =
      (some (.ok 42), [(1 : ℚ) * 2 ^ 0, (1 : ℚ) * 2 ^ 1]) :=
  (retry_api_call_policy 3 1 2 wRetryThrottle).1 42 "ThrottlingException"
    "SlowDown" "slow down" "slow down" (by decide) rfl rfl rfl
    (by decide) (by decide)

theorem retryAux_other_step {α : Type} (maxA : ℕ) (d b : ℚ)
    (f : ℕ → ApiOutcome α) (attempt fuel : ℕ) (msg : String)
    (hf : f attempt = .otherError msg) (hlast : attempt ≠ maxA - 1) :
    retryAux maxA d b f attempt (fuel + 1) =
      ((retryAux maxA d b f (attempt + 1) fuel).1,
        d * b ^ attempt :: (retryAux maxA d b f (attempt + 1) fuel).2) := by
  simp only [retryAux, hf]
  rw [if_neg hlast]

theorem retryAux_other_last {α : Type} (maxA : ℕ) (d b : ℚ)
    (f : ℕ → ApiOutcome α) (attempt fuel : ℕ) (msg : String)
    (hf : f attempt = .otherError msg) (hlast : attempt = maxA - 1) :
    retryAux maxA d b f attempt (fuel + 1) =
      (some (.error ("AWS API调用异常: " ++ msg)), []) := by
  simp only [retryAux, hf]
  rw [if_pos hlast]

theorem retryAux_all_other {α : Type} (maxA : ℕ) (d b : ℚ)
    (f : ℕ → ApiOutcome α) (ms : ℕ → String)
    (hf : ∀ i, i < maxA → f i = .otherError (ms i)) :
    ∀ fuel attempt, attempt + fuel = maxA → 1 ≤ fuel →
      retryAux maxA d b f attempt fuel =
        (some (.error ("AWS API调用异常: " ++ ms (maxA - 1))),
         (List.range' attempt (fuel - 1)).map fun i => d * b ^ i) := by
  intro fuel
  induction fuel with
  | zero => intro attempt _ h1; omega
  | succ n ih =>
    intro attempt hsum h1
    have hfa : f attempt = .otherError (ms attempt) := hf attempt (by omega)
    by_cases hlast : attempt = maxA - 1
    · have hn : n = 0 := by omega
      subst hn
      rw [retryAux_other_last maxA d b f attempt 0 (ms attempt) hfa hlast, hlast]
      simp [List.range']
    · have hn : 1 ≤ n := by omega
      obtain ⟨n', rfl⟩ : ∃ n', n = n' + 1 := ⟨n - 1, by omega⟩
      rw [retryAux_other_step maxA d b f attempt (n' + 1) (ms attempt) hfa hlast,
        ih (attempt + 1) (by omega) hn]
      simp [List.range']

/-- C5.  An operation that keeps failing with unclassified exceptions
(neither a `ClientError` with a terminal code nor a throttling code) is
retried by `_retry_api_call` under the same backoff schedule as
throttling — sleeps `initial_delay * backoff_factor ^ attempt` for
attempts `0 … max_attempts - 2` — up to the configured maximum number of
attempts, and only then fails, rather than failing fast. -/
theorem retry_api_call_unclassified {α : Type} (maxAttempts : ℕ)
    (initialDelay backoffFactor : ℚ) (f : ℕ → ApiOutcome α) (ms : ℕ → String)
    (h1 : 1 ≤ maxAttempts)
    (hf : ∀ i, i < maxAttempts → f i = .otherError (ms i)) :
    retry_api_call maxAttempts initialDelay backoffFactor f =
      (some (.error ("AWS API调用异常: " ++ ms (maxAttempts - 1))),
       (List.range (maxAttempts - 1)).map fun i =>
         initialDelay * backoffFactor ^ i) := by
  rw [retry_api_call,
    retryAux_all_other maxAttempts initialDelay backoffFactor f ms hf
      maxAttempts 0 (by omega) h1,
    List.range_eq_range']

/-- Witness for C5: with `max_attempts = 3`, `initial_delay = 1`,
`backoff_factor = 2`, a callable that always raises `RuntimeError` is
retried through all 3 attempts (sleeping 1s then 2s) and only then
fails. -/
theorem retry_api_call_unclassified_witness :
    retry_api_call 3 1 2 (fun _ => (.otherError "boom" : ApiOutcome ℕ)) =
      (some (.error "AWS API调用异常: boom"),
       (List.range 2).map fun i => (1 : ℚ) * 2 ^ i) :=
  retry_api_call_unclassified 3 1 2 (fun _ => .otherError "boom")
    (fun _ => "boom") (by decide) (fun _ _ => rfl)

/-! ### C6: the concurrent executor (`batch_process_users_concurrent`)

The thread pool is modelled deterministically: per item, the outcome the
collection loop observes for its future (a returned `OperationResult`,
a re-raised rate-limit error, or a collection timeout), plus the outcome
of a possible serial re-execution; the only scheduling freedom — how
many tasks the submission loop managed to submit before observing the
rate-limit event — is the explicit parameter `submitted`.  Submission
only stops early when some already-submitted worker raised the
rate-limit signal, which is the hypothesis `hstop` below. -/

/-- What the collection loop observes for one item's future:
`process_single_user` returned an `OperationResult` (worker-raised
non-rate-limit exceptions are already converted to failed results inside
the worker), the worker re-raised a rate-limit `AWSClientError` after
setting the degradation event, or `future.result(timeout)` raised
`TimeoutError`. -/
inductive WorkerOutcome where
  | returns (op_type : String) (success : Bool) (msg : String)
  | raisesRateLimit (msg : String)
  | timesOut
  deriving DecidableEq, Repr

/-- Outcome of re-executing one item in the serial-fallback loop:
`process_single_user` returned a result, or raised (caught by the
serial loop's `except`). -/
inductive SerialOutcome where
  | returns (op_type : String) (success : Bool) (msg : String)
  | raises (msg : String)
  deriving DecidableEq, Repr

/-- One input item (a `UserSubscription`, reduced to its username) with
its per-phase outcomes. -/
structure BatchItem where
  username : String
  concurrent : WorkerOutcome
  serial : SerialOutcome
  deriving DecidableEq, Repr

/-- The `OperationResult` the collection loop appends for one future,
or `none` when the future re-raised the rate-limit error (the loop
`break`s). -/
def concResult (it : BatchItem) : Option OperationResult :=
  match it.concurrent with
  | .returns t s m => some ⟨t, it.username, s, m⟩
  | .timesOut => some ⟨"PROCESS", it.username, false, "处理超时"⟩
  | .raisesRateLimit _ => none

/-- Did this item's worker raise the rate-limit signal? -/
def isRateLimitRaise (it : BatchItem) : Bool :=
  match it.concurrent with
  | .raisesRateLimit _ => true
  | _ => false

/-- The `OperationResult` the serial-fallback loop records for one item. -/
def serialResult (it : BatchItem) : OperationResult :=
  match it.serial with
  | .returns t s m => ⟨t, it.username, s, m⟩
  | .raises m => ⟨"PROCESS", it.username, false, "串行处理失败: " ++ m⟩

/-- The concurrent collection loop: append one result per future, in
submission order, stopping at the first future that re-raises the
rate-limit error. -/
def collectResults : List BatchItem → List OperationResult
  | [] => []
  | it :: rest =>
    match concResult it with
    | some r => r :: collectResults rest
    | none => []

/-- `UserManager.batch_process_users_concurrent`: submit the first
`submitted` items, collect their futures in order, and — when the
rate-limit event was set — serially process `users[len(results):]`. -/
def batch_process_users_concurrent (items : List BatchItem) (submitted : ℕ) :
    BatchResult :=
  let subs := items.take submitted
  let collected := collectResults subs
  let event := subs.any isRateLimitRaise
  let results :=
    if event then collected ++ (items.drop collected.length).map serialResult
    else collected
  { total_operations := items.length
    successful_operations := (results.filter fun r => r.success).length
    failed_operations := (results.filter fun r => !r.success).length
    operation_results := results }

theorem concResult_target (it : BatchItem) (r : OperationResult)
    (h : concResult it = some r) : r.target = it.username := by
  cases hc : it.concurrent <;> rw [concResult, hc] at h <;> first
    | (rw [Option.some.injEq] at h; rw [← h])
    | exact absurd h (by simp)

theorem serialResult_target (it : BatchItem) :
    (serialResult it).target = it.username := by
  cases hc : it.serial <;> rw [serialResult, hc]

theorem collectResults_targets (l : List BatchItem) :
    (collectResults l).map (fun r => r.target) =
      (l.take (collectResults l).length).map BatchItem.username := by
  induction l with
  | nil => rfl
  | cons it rest ih =>
    cases h : concResult it with
    | none => simp [collectResults, h]
    | some r =>
      simp only [collectResults, h, List.map_cons, List.length_cons,
        List.take_succ_cons]
      rw [concResult_target it r h, ih]

theorem collectResults_length_le (l : List BatchItem) :
    (collectResults l).length ≤ l.length := by
  induction l with
  | nil => simp [collectResults]
  | cons it rest ih =>
    cases h : concResult it with
    | none => simp [collectResults, h]
    | some r => simpa [collectResults, h] using ih

theorem collectResults_length_of_no_raise (l : List BatchItem)
    (h : l.any isRateLimitRaise = false) :
    (collectResults l).length = l.length := by
  induction l with
  | nil => rfl
  | cons it rest ih =>
    simp only [List.any_cons, Bool.or_eq_false_iff] at h
    have hc : ∃ r, concResult it = some r := by
      cases hco : it.concurrent
      · exact ⟨_, by rw [concResult, hco]⟩
      · exact absurd h.1 (by simp [isRateLimitRaise, hco])
      · exact ⟨_, by rw [concResult, hco]⟩
    obtain ⟨r, hr⟩ := hc
    simp [collectResults, hr, ih h.2]

/-- C6.  For every input list and every combination of per-item
outcomes (returned result, worker-raised rate-limit error, per-item
timeout, serial re-execution result or exception) and every achievable
submission cut-off, the executor returns a `BatchResult` whose
`total_operations` is the input length and whose `operation_results`
contain exactly one result per input item, in input order (targets equal
the input usernames): no single item's exception or timeout aborts the
batch or starves the remaining items. -/
theorem batch_concurrent_complete (items : List BatchItem) (submitted : ℕ)
    (hsub : submitted ≤ items.length)
    (hstop : submitted < items.length →
      (items.take submitted).any isRateLimitRaise = true) :
    (batch_process_users_concurrent items submitted).total_operations =
      items.length ∧
    (batch_process_users_concurrent items submitted).operation_results.length =
      items.length ∧
    (batch_process_users_concurrent items submitted).operation_results.map
        (fun r => r.target) =
      items.map BatchItem.username := by
  have hjle : (collectResults (items.take submitted)).length ≤ submitted := by
    calc (collectResults (items.take submitted)).length
        ≤ (items.take submitted).length := collectResults_length_le _
      _ ≤ submitted := by simp [List.length_take]
  have hjlen : (collectResults (items.take submitted)).length ≤ items.length :=
    le_trans hjle hsub
  refine ⟨rfl, ?_, ?_⟩ <;>
    simp only [batch_process_users_concurrent] <;>
    by_cases hev : (items.take submitted).any isRateLimitRaise
  · rw [if_pos hev]
    simp only [List.length_append, List.length_map, List.length_drop]
    omega
  · rw [if_neg hev]
    have hsubeq : submitted = items.length := by
      by_contra hne
      exact hev (hstop (by omega))
    subst hsubeq
    rw [List.take_length] at hev ⊢
    exact collectResults_length_of_no_raise items (by simpa using hev)
  · rw [if_pos hev]
    rw [List.map_append, collectResults_targets, List.take_take,
      min_eq_left hjle, List.map_map]
    rw [show ((fun r : OperationResult => r.target) ∘ serialResult) =
        BatchItem.username from funext fun it => serialResult_target it]
    rw [← List.map_append, List.take_append_drop]
  · rw [if_neg hev]
    have hsubeq : submitted = items.length := by
      by_contra hne
      exact hev (hstop (by omega))
    subst hsubeq
    rw [List.take_length] at hev ⊢
    rw [collectResults_targets,
      collectResults_length_of_no_raise items (by simpa using hev),
      List.take_length]

/-- Concrete batch for the C6 witness: a success, a timeout, a
rate-limit raiser (cutting submission short at 3 of 4 items), and an
item that reaches the serial phase and raises there. -/
def wItems : List BatchItem :=
  [⟨"u1@haier-saml.com", .returns "CREATE" true "ok", .returns "CREATE" true "ok"⟩,
   ⟨"u2@haier-saml.com", .timesOut, .raises "x"⟩,
   ⟨"u3@haier-saml.com", .raisesRateLimit "throttled", .returns "UPDATE" false "err"⟩,
   ⟨"u4@haier-saml.com", .returns "CREATE" true "ok", .raises "boom"⟩]

/-- Witness for C6: with 3 of the 4 items submitted before degradation,
the batch still reports 4 total operations and one result per item. -/
theorem batch_concurrent_complete_witness :
    (batch_process_users_concurrent wItems 3).total_operations = 4 ∧
    (batch_process_users_concurrent wItems 3).operation_results.length = 4 ∧
    (batch_process_users_concurrent wItems 3).operation_results.map
        (fun r => r.target) =
      ["u1@haier-saml.com", "u2@haier-saml.com", "u3@haier-saml.com",
       "u4@haier-saml.com"] :=
  batch_concurrent_complete wItems 3 (by decide) (fun _ => by decide)

/-! ### C7: the snapshot cache (`data_cache.DataCache.initialize`)

The gateway is modelled as the data the three paginated list calls
return; `initialize` additionally returns the trace of remote calls it
issues.  The accessors (`get_user_groups`, `get_group_name`,
`get_all_users`) are functions of the built cache state only — they
cannot issue remote calls. -/

/-- One email entry of an `identitystore` user record. -/
structure AwsEmail where
  value : String
  primary : Bool
  deriving DecidableEq, Repr

/-- A raw user record as returned by `list_users`. -/
structure AwsUser where
  user_id : String
  username : String
  given_name : String
  family_name : String
  display_name : String
  emails : List AwsEmail
  deriving DecidableEq, Repr

/-- A raw group record as returned by `list_groups` (`GroupId` may be
missing/empty — a falsy id is skipped by the cache loop). -/
structure AwsGroup where
  group_id : String
  display_name : String
  deriving DecidableEq, Repr

/-- A raw membership record: `membership.get('MemberId', {}).get('UserId')`. -/
structure AwsMembership where
  member_id : Option String
  deriving DecidableEq, Repr

/-- The remote directory state behind the three list calls. -/
structure Gateway where
  users : List AwsUser
  groups : List AwsGroup
  memberships : String → List AwsMembership

/-- One remote list call issued while building the cache. -/
inductive ApiCall where
  | listUsers
  | listGroups
  | listGroupMemberships (group_id : String)
  deriving DecidableEq, Repr

/-- The primary-email extraction loop of `DataCache.initialize`
(first email with `Primary == True`, else `""`). -/
def primaryEmail (emails : List AwsEmail) : String :=
  match emails.find? fun e => e.primary with
  | some e => e.value
  | none => ""

/-- The cache state after `initialize`. -/
structure DataCache where
  users : List IAMUser
  group_id_to_name : List (String × String)
  user_id_to_groups : String → List String

/-- `self._user_id_to_groups[member_id].append(group_name)` (with the
implicit `[]` default). -/
def addMembership (idx : String → List String) (uid gname : String) :
    String → List String :=
  fun u => if u = uid then idx uid ++ [gname] else idx u

/-- The inner membership loop for one group. -/
def addGroupMemberships (gname : String) :
    List AwsMembership → (String → List String) → (String → List String)
  | [], idx => idx
  | m :: rest, idx =>
    match m.member_id with
    | some uid => addGroupMemberships gname rest (addMembership idx uid gname)
    | none => addGroupMemberships gname rest idx

/-- Step 3 of `initialize`: invert group→members into user→groups,
skipping groups with a falsy id. -/
def buildIndex (gw : Gateway) : String → List String :=
  gw.groups.foldl
    (fun idx g =>
      if g.group_id = "" then idx
      else addGroupMemberships g.display_name (gw.memberships g.group_id) idx)
    fun _ => []

/-- `DataCache.initialize(aws_client)`: the built cache plus the trace
of remote calls, in order. -/
def DataCache.build (gw : Gateway) : DataCache × List ApiCall :=
  let gidMap := gw.groups.foldl
    (fun m g => if g.group_id = "" then m else dictInsert g.group_id g.display_name m)
    []
  let memberCalls := (gw.groups.filter fun g => g.group_id != "").map
    fun g => ApiCall.listGroupMemberships g.group_id
  let idx := buildIndex gw
  let users := gw.users.map fun au =>
    { user_id := au.user_id
      username := au.username
      email := primaryEmail au.emails
      first_name := au.given_name
      last_name := au.family_name
      display_name := au.display_name
      groups := idx au.user_id : IAMUser }
  (⟨users, gidMap, idx⟩, ApiCall.listUsers :: ApiCall.listGroups :: memberCalls)

/-- `DataCache.get_user_groups` (cache-only read). -/
def DataCache.get_user_groups (c : DataCache) (uid : String) : List String :=
  c.user_id_to_groups uid

/-- `DataCache.get_all_users` (cache-only read). -/
def DataCache.get_all_users (c : DataCache) : List IAMUser := c.users

/-- `DataCache.get_group_name` (cache-only read). -/
def DataCache.get_group_name (c : DataCache) (gid : String) : String :=
  (alookup gid c.group_id_to_name).getD ""

theorem mem_addGroupMemberships (gname w uid : String) :
    ∀ (ms : List AwsMembership) (idx : String → List String),
      w ∈ addGroupMemberships gname ms idx uid ↔
        w ∈ idx uid ∨ (w = gname ∧ ∃ m ∈ ms, m.member_id = some uid) := by
  intro ms
  induction ms with
  | nil => intro idx; simp [addGroupMemberships]
  | cons m rest ih =>
    intro idx
    simp only [addGroupMemberships]
    cases hm : m.member_id with
    | none =>
      show w ∈ addGroupMemberships gname rest idx uid ↔ _
      rw [ih]
      constructor
      · rintro (h | ⟨rfl, m', hm', hmid⟩)
        · exact Or.inl h
        · exact Or.inr ⟨rfl, m', List.mem_cons_of_mem _ hm', hmid⟩
      · rintro (h | ⟨rfl, m', hm', hmid⟩)
        · exact Or.inl h
        · rcases List.mem_cons.1 hm' with rfl | h'
          · rw [hm] at hmid
            exact absurd hmid (by simp)
          · exact Or.inr ⟨rfl, m', h', hmid⟩
    | some uid' =>
      show w ∈ addGroupMemberships gname rest (addMembership idx uid' gname) uid ↔ _
      rw [ih]
      by_cases hu : uid = uid'
      · subst hu
        have hadd : addMembership idx uid gname uid = idx uid ++ [gname] := by
          rw [addMembership]
          exact if_pos rfl
        rw [hadd]
        simp only [List.mem_append, List.mem_singleton]
        constructor
        · rintro ((h | h) | ⟨rfl, m', hm', hmid⟩)
          · exact Or.inl h
          · exact Or.inr ⟨h, m, List.mem_cons_self m rest, by rw [hm]⟩
          · exact Or.inr ⟨rfl, m', List.mem_cons_of_mem _ hm', hmid⟩
        · rintro (h | ⟨rfl, m', hm', hmid⟩)
          · exact Or.inl (Or.inl h)
          · exact Or.inl (Or.inr rfl)
      · have hadd : addMembership idx uid' gname uid = idx uid := by
          rw [addMembership]
          exact if_neg hu
        rw [hadd]
        constructor
        · rintro (h | ⟨rfl, m', hm', hmid⟩)
          · exact Or.inl h
          · exact Or.inr ⟨rfl, m', List.mem_cons_of_mem _ hm', hmid⟩
        · rintro (h | ⟨rfl, m', hm', hmid⟩)
          · exact Or.inl h
          · rcases List.mem_cons.1 hm' with rfl | h'
            · rw [hm] at hmid
              exact absurd (Option.some.inj hmid).symm hu
            · exact Or.inr ⟨rfl, m', h', hmid⟩

theorem mem_groupsFold (memberships : String → List AwsMembership) (w uid : String) :
    ∀ (gs : List AwsGroup) (idx : String → List String),
      w ∈ (gs.foldl
          (fun idx g =>
            if g.group_id = "" then idx
            else addGroupMemberships g.display_name (memberships g.group_id) idx)
          idx) uid ↔
        w ∈ idx uid ∨ ∃ g ∈ gs, g.group_id ≠ "" ∧ g.display_name = w ∧
          ∃ m ∈ memberships g.group_id, m.member_id = some uid := by
  intro gs
  induction gs with
  | nil => intro idx; simp
  | cons g rest ih =>
    intro idx
    rw [List.foldl_cons, ih]
    by_cases hg : g.group_id = ""
    · rw [if_pos hg]
      constructor
      · rintro (h | h)
        · exact Or.inl h
        · exact Or.inr (h.imp fun g' h' => ⟨List.mem_cons_of_mem _ h'.1, h'.2⟩)
      · rintro (h | ⟨g', hg', hid, hrest⟩)
        · exact Or.inl h
        · rcases List.mem_cons.1 hg' with rfl | hg''
          · exact absurd hg hid
          · exact Or.inr ⟨g', hg'', hid, hrest⟩
    · rw [if_neg hg, mem_addGroupMemberships]
      constructor
      · rintro ((h | h) | h)
        · exact Or.inl h
        · exact Or.inr ⟨g, List.mem_cons_self g rest, hg, h.1.symm, h.2⟩
        · exact Or.inr (h.imp fun g' h' => ⟨List.mem_cons_of_mem _ h'.1, h'.2⟩)
      · rintro (h | ⟨g', hg', hid, hname, hmem⟩)
        · exact Or.inl (Or.inl h)
        · rcases List.mem_cons.1 hg' with rfl | hg''
          · exact Or.inl (Or.inr ⟨hname.symm, hmem⟩)
          · exact Or.inr ⟨g', hg'', hid, hname, hmem⟩

/-- C7.  For a gateway state with `U` users and `G` groups (each group
carrying its non-empty id), building the cache issues exactly the trace
`list_users, list_groups, list_group_memberships(g)` for each group `g`
— `2 + G` list calls in total, independent of `U` — and the built
user→groups index holds `gname` for `uid` exactly when some group named
`gname` has a membership record for `uid`.  The accessors read that
state only (they take no gateway argument), so no further remote calls
occur after the build. -/
theorem data_cache_initialize_spec (gw : Gateway)
    (hids : ∀ g ∈ gw.groups, g.group_id ≠ "") :
    (DataCache.build gw).2 =
      ApiCall.listUsers :: ApiCall.listGroups ::
        (gw.groups.map fun g => ApiCall.listGroupMemberships g.group_id) ∧
    (DataCache.build gw).2.length = 2 + gw.groups.length ∧
    (∀ uid gname,
      gname ∈ (DataCache.build gw).1.get_user_groups uid ↔
        ∃ g ∈ gw.groups, g.display_name = gname ∧
          ∃ m ∈ gw.memberships g.group_id, m.member_id = some uid) := by
  have hfilter : (gw.groups.filter fun g => g.group_id != "") = gw.groups :=
    List.filter_eq_self.2 fun g hg => bne_iff_ne.2 (hids g hg)
  have hcalls : (DataCache.build gw).2 =
      ApiCall.listUsers :: ApiCall.listGroups ::
        (gw.groups.map fun g => ApiCall.listGroupMemberships g.group_id) := by
    show ApiCall.listUsers :: ApiCall.listGroups ::
        ((gw.groups.filter fun g => g.group_id != "").map
          fun g => ApiCall.listGroupMemberships g.group_id) = _
    rw [hfilter]
  refine ⟨hcalls, ?_, ?_⟩
  · rw [hcalls]
    simp only [List.length_cons, List.length_map]
    omega
  · intro uid gname
    show gname ∈ buildIndex gw uid ↔ _
    rw [buildIndex, mem_groupsFold]
    simp only [List.not_mem_nil, false_or]
    constructor
    · rintro ⟨g, hg, -, hname, hmem⟩
      exact ⟨g, hg, hname, hmem⟩
    · rintro ⟨g, hg, hname, hmem⟩
      exact ⟨g, hg, hids g hg, hname, hmem⟩

/-- Concrete gateway for the C7 witness: two users, two groups, user
`u1` in both groups, user `u2` in none. -/
def wGateway : Gateway :=
  { users :=
      [⟨"u1", "E1@haier-saml.com", "E1", "Alice", "E1_Alice",
        [⟨"a@x.com", true⟩]⟩,
       ⟨"u2", "E2@haier-saml.com", "E2", "Bob", "E2_Bob", []⟩]
    groups := [⟨"g1", "Group_KIRO_eu-central-1"⟩, ⟨"g2", "Group_QDEV_eu-central-1"⟩]
    memberships := fun gid =>
      if gid = "g1" then [⟨some "u1"⟩]
      else if gid = "g2" then [⟨some "u1"⟩]
      else [] }

/-- Witness for C7: on `wGateway` the build issues exactly the four
calls `list_users, list_groups, memberships(g1), memberships(g2)` —
`2 + 2` calls for 2 users and 2 groups — and `u1`'s index entry holds
the KIRO group. -/
theorem data_cache_initialize_spec_witness :
    (DataCache.build wGateway).2 =
      [ApiCall.listUsers, ApiCall.listGroups,
       ApiCall.listGroupMemberships "g1", ApiCall.listGroupMemberships "g2"] ∧
    (DataCache.build wGateway).2.length = 2 + 2 ∧
    ("Group_KIRO_eu-central-1" ∈
        (DataCache.build wGateway).1.get_user_groups "u1" ↔
      ∃ g ∈ wGateway.groups, g.display_name = "Group_KIRO_eu-central-1" ∧
        ∃ m ∈ wGateway.memberships g.group_id, m.member_id = some "u1") :=
  have h := data_cache_initialize_spec wGateway (by decide)
  ⟨h.1, h.2.1, h.2.2 "u1" "Group_KIRO_eu-central-1"⟩

/-! ### C8/C9: the attribute upgrade engine (`user_attribute_upgrader.py`) -/

/-- `[A-Za-z0-9]` of the `_extract_employee_id` regex. -/
def isAlnumAscii (c : Char) : Bool := c.isAlpha || c.isDigit

/-- `UserAttributeUpgrader._extract_employee_id`: the canonical
`^([A-Za-z0-9]+)@haier-saml\.com$` shape yields the id before the
suffix; otherwise a non-empty username with no `'@'` is itself the id;
otherwise `None`. -/
def extract_employee_id (username : String) : Option String :=
  let cs := username.data
  let sfx := managedSuffix.data
  let idPart := cs.take (cs.length - sfx.length)
  if sfx.isSuffixOf cs ∧ idPart ≠ [] ∧ idPart.all isAlnumAscii then
    some ⟨idPart⟩
  else if username ≠ "" ∧ ¬ '@' ∈ username.data then some username
  else none

/-- `UserAttributeUpgrader._needs_upgrade`. -/
def needs_upgrade (iam_user : IAMUser) (csv_user : UserSubscription) : Bool :=
  if iam_user.username ≠ csv_user.get_username then true
  else if iam_user.display_name ≠ csv_user.employee_id ++ "_" ++ csv_user.name then true
  else if iam_user.first_name ≠ csv_user.employee_id then true
  else if iam_user.last_name ≠ csv_user.name then true
  else if iam_user.email ≠ csv_user.email then true
  else false

/-- An `AttributeValue` of an identitystore update operation. -/
inductive AttrValue where
  | str (s : String)
  | emailArray (value : String) (kind : String) (primary : Bool)
  deriving DecidableEq, Repr

/-- One update operation (`AttributePath` / `AttributeValue`). -/
structure UpdateOp where
  attribute_path : String
  attribute_value : AttrValue
  deriving DecidableEq, Repr

/-- `models.UserUpdateData`. -/
structure UserUpdateData where
  user_id : String
  username : String
  operations : List UpdateOp
  old_attributes : List (String × String)
  new_attributes : List (String × String)
  deriving DecidableEq, Repr

/-- `UserAttributeUpgrader.convert_to_new_format`. -/
def convert_to_new_format (iam_user : IAMUser) (csv_user : UserSubscription) :
    UserUpdateData :=
  let new_username := csv_user.get_username
  let new_first_name := csv_user.employee_id
  let new_last_name := csv_user.name
  let new_display_name := csv_user.employee_id ++ "_" ++ csv_user.name
  let operations :=
    (if iam_user.first_name ≠ new_first_name then
      [⟨"name.givenName", .str new_first_name⟩] else []) ++
    (if iam_user.last_name ≠ new_last_name then
      [⟨"name.familyName", .str new_last_name⟩] else []) ++
    (if iam_user.display_name ≠ new_display_name then
      [⟨"displayName", .str new_display_name⟩] else []) ++
    (if iam_user.email ≠ csv_user.email then
      [⟨"emails", .emailArray csv_user.email "work" true⟩] else [])
  { user_id := iam_user.user_id
    username := iam_user.username
    operations := operations
    old_attributes :=
      [("username", iam_user.username), ("first_name", iam_user.first_name),
       ("last_name", iam_user.last_name), ("display_name", iam_user.display_name),
       ("email", iam_user.email)]
    new_attributes :=
      [("username", new_username), ("first_name", new_first_name),
       ("last_name", new_last_name), ("display_name", new_display_name),
       ("email", csv_user.email)] }

/-- `models.UpgradePlan`. -/
structure UpgradePlan where
  users_to_upgrade : List (IAMUser × UserSubscription)
  total_operations : Nat
  estimated_time : Nat
  deriving DecidableEq, Repr

/-- `UserAttributeUpgrader.generate_upgrade_plan`. -/
def generate_upgrade_plan (iam_users : List IAMUser)
    (csv_users : List UserSubscription) : UpgradePlan :=
  let csv_user_map := dictOf UserSubscription.employee_id csv_users
  let users_to_upgrade := iam_users.filterMap fun iam_user =>
    match extract_employee_id iam_user.username with
    | some employee_id =>
      match alookup employee_id csv_user_map with
      | some csv_user =>
        if needs_upgrade iam_user csv_user then some (iam_user, csv_user) else none
      | none => none
    | none => none
  let total_operations :=
    (users_to_upgrade.map fun p =>
      (convert_to_new_format p.1 p.2).operations.length).sum
  { users_to_upgrade := users_to_upgrade
    total_operations := total_operations
    estimated_time := total_operations * 2 }

/-- With pairwise-distinct keys, `find?` on a key hit returns exactly
the member carrying that key. -/
theorem find?_key_of_nodup (f : α → String) (xs : List α)
    (h : (xs.map f).Nodup) (x : α) (hx : x ∈ xs) :
    xs.find? (fun y => f y == f x) = some x := by
  induction xs with
  | nil => simp at hx
  | cons y ys ih =>
    have hcons : f y ∉ ys.map f ∧ (ys.map f).Nodup :=
      List.nodup_cons.1 (show (f y :: ys.map f).Nodup by simpa using h)
    rcases List.mem_cons.1 hx with rfl | hx'
    · rw [List.find?_cons_of_pos _ (by simp)]
    · have hne : f y ≠ f x := by
        intro hcontra
        exact hcons.1 (hcontra ▸ List.mem_map_of_mem f hx')
      rw [List.find?_cons_of_neg _ (by simp [hne])]
      exact ih hcons.2 hx'

theorem needs_upgrade_iff (iam_user : IAMUser) (csv_user : UserSubscription) :
    needs_upgrade iam_user csv_user = true ↔
      iam_user.username ≠ csv_user.get_username ∨
      iam_user.display_name ≠ csv_user.employee_id ++ "_" ++ csv_user.name ∨
      iam_user.first_name ≠ csv_user.employee_id ∨
      iam_user.last_name ≠ csv_user.name ∨
      iam_user.email ≠ csv_user.email := by
  unfold needs_upgrade
  split_ifs with h1 h2 h3 h4 h5 <;> simp_all

/-- C8 (amended).  When the desired records carry pairwise-distinct
employee ids (the roster is deduplicated upstream), a pair
`(directory identity, desired record)` is in the upgrade plan iff the
directory username yields exactly the record's employee id under
`_extract_employee_id` (canonical `id@haier-saml.com` shape, or the raw
`@`-free username) and at least one of the five fields — username,
display name, given name, family name, email — differs from the
canonical form. -/
theorem generate_upgrade_plan_mem (iam_users : List IAMUser)
    (csv_users : List UserSubscription)
    (hids : (csv_users.map UserSubscription.employee_id).Nodup)
    (iam_user : IAMUser) (csv_user : UserSubscription) :
    (iam_user, csv_user) ∈ (generate_upgrade_plan iam_users csv_users).users_to_upgrade ↔
      iam_user ∈ iam_users ∧ csv_user ∈ csv_users ∧
      extract_employee_id iam_user.username = some csv_user.employee_id ∧
      (iam_user.username ≠ csv_user.get_username ∨
       iam_user.display_name ≠ csv_user.employee_id ++ "_" ++ csv_user.name ∨
       iam_user.first_name ≠ csv_user.employee_id ∨
       iam_user.last_name ≠ csv_user.name ∨
       iam_user.email ≠ csv_user.email) := by
  have hmap : ∀ k, alookup k (dictOf UserSubscription.employee_id csv_users) =
      csv_users.find? fun u => u.employee_id == k := by
    intro k
    rw [dictOf_nodup _ _ hids, alookup_map_pair]
  show (iam_user, csv_user) ∈ iam_users.filterMap _ ↔ _
  rw [List.mem_filterMap]
  constructor
  · rintro ⟨iu, hiu, hf⟩
    cases hex : extract_employee_id iu.username with
    | none => rw [hex] at hf; simp at hf
    | some eid =>
      rw [hex] at hf
      simp only [hmap] at hf
      cases hfind : csv_users.find? fun u => u.employee_id == eid with
      | none => rw [hfind] at hf; simp at hf
      | some cu =>
        rw [hfind] at hf
        simp only [] at hf
        by_cases hnu : needs_upgrade iu cu
        · rw [if_pos hnu, Option.some.injEq] at hf
          have hiu' : iu = iam_user := congrArg Prod.fst hf
          have hcu' : cu = csv_user := congrArg Prod.snd hf
          subst hiu'
          subst hcu'
          have hmem := List.mem_of_find?_eq_some hfind
          have hkey : cu.employee_id = eid := by
            have := List.find?_some hfind
            simpa using this
          refine ⟨hiu, hmem, by rw [hex, hkey], ?_⟩
          exact (needs_upgrade_iff iu cu).1 hnu
        · rw [if_neg hnu] at hf
          simp at hf
  · rintro ⟨hiu, hcu, hex, hdiff⟩
    refine ⟨iam_user, hiu, ?_⟩
    rw [hex]
    simp only [hmap]
    rw [find?_key_of_nodup UserSubscription.employee_id csv_users hids csv_user hcu]
    simp only []
    rw [if_pos ((needs_upgrade_iff iam_user csv_user).2 hdiff)]

/-- Directory user for the C8 counterexample/witness: legacy attribute
values under the canonical username `E1@haier-saml.com`. -/
def cex8Iam : IAMUser :=
  ⟨"id1", "E1@haier-saml.com", "old@x.com", "E1", "Old", "E1_Old", []⟩

/-- First desired record with employee id `E1`. -/
def cex8A : UserSubscription := ⟨"E1", "Alice", "a1@x.com", kiroSubscription⟩

/-- Second desired record with the same employee id, shadowing `cex8A`
in the upgrader's employee-id dict. -/
def cex8B : UserSubscription := ⟨"E1", "Bob", "a2@x.com", kiroSubscription⟩

/-- Counterexample for C8 as frozen: the extracted id of `cex8Iam`
equals `cex8A`'s employee id and the email field differs, yet
`(cex8Iam, cex8A)` is not in the plan — the duplicate `cex8B` shadows
`cex8A` in the employee-id dict. -/
theorem generate_upgrade_plan_counterexample :
    extract_employee_id cex8Iam.username = some cex8A.employee_id ∧
    cex8Iam.email ≠ cex8A.email ∧
    (cex8Iam, cex8A) ∉
      (generate_upgrade_plan [cex8Iam] [cex8A, cex8B]).users_to_upgrade ∧
    (cex8Iam, cex8B) ∈
      (generate_upgrade_plan [cex8Iam] [cex8A, cex8B]).users_to_upgrade := by
  decide

/-- Witness for C8: on a deduplicated roster, the pair
`(cex8Iam, cex8B)` is in the plan (the display name and email differ
from the canonical form). -/
theorem generate_upgrade_plan_mem_witness :
    (cex8Iam, cex8B) ∈ (generate_upgrade_plan [cex8Iam] [cex8B]).users_to_upgrade :=
  (generate_upgrade_plan_mem [cex8Iam] [cex8B] (by decide) cex8Iam cex8B).2
    ⟨by decide, by decide, by decide, by decide⟩

/-- `models.UpgradeResult`. -/
structure UpgradeResult where
  total_users : Nat
  successful_upgrades : Nat
  failed_upgrades : Nat
  upgrade_operations : List OperationResult
  upgrade_plan : Option UpgradePlan
  deriving DecidableEq, Repr

/-- `UserAttributeUpgrader._execute_user_update`, parameterised by the
remote `update_user_with_operations` call (modelled as a function from
`(user_id, operations)` to success or a raised exception).  Returns the
`OperationResult` plus the update calls actually issued. -/
def execute_user_update (remote : String → List UpdateOp → Except String Unit)
    (update_data : UserUpdateData) :
    OperationResult × List (String × List UpdateOp) :=
  if update_data.operations = [] then
    (⟨"UPDATE", update_data.username, true, "无需更新"⟩, [])
  else
    match remote update_data.user_id update_data.operations with
    | .ok _ =>
      (⟨"UPDATE", update_data.username, true,
        "成功更新" ++ toString update_data.operations.length ++ "个属性"⟩,
       [(update_data.user_id, update_data.operations)])
    | .error e =>
      (⟨"UPDATE", update_data.username, false, "更新用户属性失败: " ++ e⟩,
       [(update_data.user_id, update_data.operations)])

/-- The per-pair loop body of `upgrade_user_attributes` in the non-dry
path: convert, execute, accumulate results and issued calls. -/
def upgradeLoop (remote : String → List UpdateOp → Except String Unit) :
    List (IAMUser × UserSubscription) →
    List OperationResult × List (String × List UpdateOp)
  | [] => ([], [])
  | p :: rest =>
    let step := execute_user_update remote (convert_to_new_format p.1 p.2)
    let tail := upgradeLoop remote rest
    (step.1 :: tail.1, step.2 ++ tail.2)

/-- `UserAttributeUpgrader.upgrade_user_attributes(users, csv_users,
dry_run)`: the `UpgradeResult` plus the trace of directory update calls
issued. -/
def upgrade_user_attributes (remote : String → List UpdateOp → Except String Unit)
    (users : List IAMUser) (csv_users : List UserSubscription) (dry_run : Bool) :
    UpgradeResult × List (String × List UpdateOp) :=
  let upgrade_plan := generate_upgrade_plan users csv_users
  if dry_run then
    ({ total_users := upgrade_plan.users_to_upgrade.length
       successful_upgrades := 0
       failed_upgrades := 0
       upgrade_operations := []
       upgrade_plan := some upgrade_plan }, [])
  else
    let run := upgradeLoop remote upgrade_plan.users_to_upgrade
    ({ total_users := upgrade_plan.users_to_upgrade.length
       successful_upgrades := (run.1.filter fun r => r.success).length
       failed_upgrades := (run.1.filter fun r => !r.success).length
       upgrade_operations := run.1
       upgrade_plan := some upgrade_plan }, run.2)

/-- C9.  For every pair of identity lists and every directory behaviour,
calling the upgrade engine with `dry_run = true` returns an
`UpgradeResult` carrying the generated plan, zero successful and zero
failed upgrades, an empty operations list — and issues no update call
against the directory, leaving its state untouched. -/
theorem upgrade_dry_run (remote : String → List UpdateOp → Except String Unit)
    (users : List IAMUser) (csv_users : List UserSubscription) :
    (upgrade_user_attributes remote users csv_users true).1.successful_upgrades = 0 ∧
    (upgrade_user_attributes remote users csv_users true).1.failed_upgrades = 0 ∧
    (upgrade_user_attributes remote users csv_users true).1.upgrade_operations = [] ∧
    (upgrade_user_attributes remote users csv_users true).1.upgrade_plan =
      some (generate_upgrade_plan users csv_users) ∧
    (upgrade_user_attributes remote users csv_users true).2 = [] :=
  ⟨rfl, rfl, rfl, rfl, rfl⟩

/-! ### C10: the two empty-case aggregate conventions -/

/-- The results dict of `UserManager.execute_sync_plan`. -/
structure ExecuteResults where
  create_results : List OperationResult
  delete_results : List OperationResult
  update_results : List OperationResult
  total_successful : Nat
  total_failed : Nat
  success_rate : ℚ
  deriving DecidableEq, Repr

/-- `UserManager.execute_sync_plan(sync_plan, shared_cache, ...)`,
parameterised by the two batch executors (creates/updates and deletes,
which perform the remote work) and the optional shared cache's user
list.  Faithful to the source: the cache filter re-checks
`_needs_update` for the update partition, each non-empty partition is
handed to its batch executor, and
`success_rate = successes / (successes + failures)` with the empty case
defined as `1.0`. -/
def execute_sync_plan (newFormat : Bool) (sync_plan : SyncPlan)
    (shared_cache : Option (List IAMUser))
    (execBatch : List UserSubscription → BatchResult)
    (execDelete : List UserSubscription → BatchResult) : ExecuteResults :=
  let users_to_update :=
    match shared_cache with
    | some cached_users =>
      let existing_users_map := dictOf IAMUser.username cached_users
      sync_plan.users_to_update.filter fun user =>
        match alookup user.get_username existing_users_map with
        | some existing => needs_update newFormat user existing
        | none => true
    | none => sync_plan.users_to_update
  let createPart :=
    if sync_plan.users_to_create ≠ [] then
      let b := execBatch sync_plan.users_to_create
      (b.operation_results, b.successful_operations, b.failed_operations)
    else ([], 0, 0)
  let updatePart :=
    if users_to_update ≠ [] then
      let b := execBatch users_to_update
      (b.operation_results, b.successful_operations, b.failed_operations)
    else ([], 0, 0)
  let deletePart :=
    if sync_plan.users_to_delete ≠ [] then
      let b := execDelete sync_plan.users_to_delete
      (b.operation_results, b.successful_operations, b.failed_operations)
    else ([], 0, 0)
  let total_successful := createPart.2.1 + updatePart.2.1 + deletePart.2.1
  let total_failed := createPart.2.2 + updatePart.2.2 + deletePart.2.2
  { create_results := createPart.1
    delete_results := deletePart.1
    update_results := updatePart.1
    total_successful := total_successful
    total_failed := total_failed
    success_rate :=
      if total_successful + total_failed > 0 then
        (total_successful : ℚ) / ((total_successful : ℚ) + (total_failed : ℚ))
      else 1 }

/-- C10.  On a sync plan whose three partitions are all empty,
`execute_sync_plan` reports zero successes, zero failures and a success
rate of `1.0`, whereas `BatchResult.success_rate` is `0.0` whenever
`total_operations = 0` — the two aggregates encode the empty case with
opposite conventions. -/
theorem execute_sync_plan_empty (newFormat : Bool)
    (shared_cache : Option (List IAMUser))
    (execBatch execDelete : List UserSubscription → BatchResult)
    (sync_plan : SyncPlan)
    (hc : sync_plan.users_to_create = [])
    (hu : sync_plan.users_to_update = [])
    (hd : sync_plan.users_to_delete = []) :
    (execute_sync_plan newFormat sync_plan shared_cache execBatch
        execDelete).total_successful = 0 ∧
    (execute_sync_plan newFormat sync_plan shared_cache execBatch
        execDelete).total_failed = 0 ∧
    (execute_sync_plan newFormat sync_plan shared_cache execBatch
        execDelete).success_rate = 1 ∧
    (∀ b : BatchResult, b.total_operations = 0 → b.success_rate = 0) := by
  have hu' :
      (match shared_cache with
        | some cached_users =>
          sync_plan.users_to_update.filter fun user =>
            match alookup user.get_username (dictOf IAMUser.username cached_users) with
            | some existing => needs_update newFormat user existing
            | none => true
        | none => sync_plan.users_to_update) = [] := by
    cases shared_cache <;> simp [hu]
  refine ⟨?_, ?_, ?_, ?_⟩
  · simp [execute_sync_plan, hc, hd, hu']
  · simp [execute_sync_plan, hc, hd, hu']
  · simp [execute_sync_plan, hc, hd, hu']
  · intro b hb
    simp [BatchResult.success_rate, hb]

/-- Witness for C10: the concrete empty plan with a trivial executor
yields `(0, 0, 1)`, while an empty `BatchResult` reports rate `0`. -/
theorem execute_sync_plan_empty_witness :
    (execute_sync_plan true ⟨[], [], [], 0⟩ none (fun _ => ⟨0, 0, 0, []⟩)
        (fun _ => ⟨0, 0, 0, []⟩)).total_successful = 0 ∧
    (execute_sync_plan true ⟨[], [], [], 0⟩ none (fun _ => ⟨0, 0, 0, []⟩)
        (fun _ => ⟨0, 0, 0, []⟩)).total_failed = 0 ∧
    (execute_sync_plan true ⟨[], [], [], 0⟩ none (fun _ => ⟨0, 0, 0, []⟩)
        (fun _ => ⟨0, 0, 0, []⟩)).success_rate = 1 ∧
    BatchResult.success_rate ⟨0, 0, 0, []⟩ = 0 :=
  have h := execute_sync_plan_empty true none (fun _ => ⟨0, 0, 0, []⟩)
    (fun _ => ⟨0, 0, 0, []⟩) ⟨[], [], [], 0⟩ rfl rfl rfl
  ⟨h.1, h.2.1, h.2.2.1, h.2.2.2 ⟨0, 0, 0, []⟩ rfl⟩

end SubBatcher
